import Mathlib

/-!
# Verification of the `unique_64` identifier allocator

Shallow embedding of the Rust crate `unique_64` (`src/lib.rs`), a 64-bit
identifier allocator with two fields: a hash set `available_ids` of released
identifiers eligible for reuse, and a counter `next_id`, the smallest
identifier never yet issued.

Modelling conventions:

* `u64` values are `Nat`; the only arithmetic that can overflow is the
  increment `self.next_id += 1` in `get_next`, which is embedded as checked
  addition: when `next_id + 1` would exceed `2 ^ 64 - 1` the operation
  fails (`none`), mirroring the arithmetic-overflow panic of the profile
  under which the crate's own tests run. No silent wrap is modelled.
* The Rust `panic!` in `remove` is embedded as an `Except.error` carrying
  the single error kind together with the allocator state at the moment of
  the panic (the source checks before it ever mutates, so that state is the
  pre-state).
* `self.available_ids.iter().next()` returns an arbitrary element of the
  hash set (iteration order of a `HashSet` is unspecified).  The embedding
  is parametric in a picker `pick : Finset Nat → Option Nat`; `ValidPick`
  states exactly what the Rust API guarantees: the picked element is a
  member, and only the empty set yields no element.  `minPick` is one
  concrete valid picker used to evaluate the model on concrete inputs.
-/

/-- The number of values of the Rust type `u64`. -/
def U64CARD : Nat := 2 ^ 64

/-- The single error kind of the allocator: `remove` called with an
identifier that is not currently active. -/
inductive AllocError where
  | invalidRelease
deriving DecidableEq

/-- The `Unique64` struct from `src/lib.rs`: the set of released,
reusable identifiers and the next never-issued identifier. -/
structure Unique64 where
  available_ids : Finset Nat
  next_id : Nat
deriving DecidableEq

/-- `Unique64::new()`: empty released set, counter at 0. -/
def Unique64.new : Unique64 := ⟨∅, 0⟩

/-- What the Rust API guarantees about `HashSet::iter().next()`: an element
produced by the picker is a member of the set, and the picker comes up empty
only on the empty set. -/
def ValidPick (pick : Finset Nat → Option Nat) : Prop :=
  (∀ s x, pick s = some x → x ∈ s) ∧ (∀ s, pick s = none → s = ∅)

/-- A concrete valid picker: the least element, if any. -/
def minPick (s : Finset Nat) : Option Nat :=
  if h : s.Nonempty then some (s.min' h) else none

/-- `Unique64::get_next(&mut self) -> u64`, parametric in the hash-set
picker.  If the picker finds a released id, remove and return it; otherwise
return `next_id` and increment it.  The increment is checked `u64`
arithmetic: `none` is the overflow panic. -/
def Unique64.get_next (pick : Finset Nat → Option Nat) (s : Unique64) :
    Option (Nat × Unique64) :=
  match pick s.available_ids with
  | some selection => some (selection, ⟨s.available_ids.erase selection, s.next_id⟩)
  | none =>
      if s.next_id + 1 < U64CARD then
        some (s.next_id, ⟨s.available_ids, s.next_id + 1⟩)
      else
        none

/-- `Unique64::remove(&mut self, value: u64)`: panics (`.error`, carrying
the state at the panic point) when `value` is already released or
`value >= next_id`; otherwise inserts `value` into the released set. -/
def Unique64.remove (s : Unique64) (value : Nat) :
    Except (AllocError × Unique64) Unique64 :=
  if value ∈ s.available_ids ∨ s.next_id ≤ value then
    .error (.invalidRelease, s)
  else
    .ok ⟨insert value s.available_ids, s.next_id⟩

/-- Spec invariant I2: an identifier is currently active iff it is below
`next_id` and not in the released set. -/
def Unique64.Active (s : Unique64) (v : Nat) : Prop :=
  v < s.next_id ∧ v ∉ s.available_ids

/-- Spec invariant I1: every released identifier is strictly below
`next_id`. -/
def I1 (s : Unique64) : Prop :=
  ∀ x ∈ s.available_ids, x < s.next_id

/-- Allocator states reachable from a fresh allocator by (successful)
`get_next` and `remove` calls. -/
inductive Reachable (pick : Finset Nat → Option Nat) : Unique64 → Prop where
  | new : Reachable pick Unique64.new
  | alloc {s v s'} : Reachable pick s →
      Unique64.get_next pick s = some (v, s') → Reachable pick s'
  | release {s v s'} : Reachable pick s →
      Unique64.remove s v = .ok s' → Reachable pick s'

/-- Run `get_next` a given number of times, collecting the issued
identifiers in order; `none` if any call panics. -/
def allocList (pick : Finset Nat → Option Nat) : Nat → Unique64 →
    Option (List Nat × Unique64)
  | 0, s => some ([], s)
  | n + 1, s =>
    match Unique64.get_next pick s with
    | none => none
    | some (v, s') =>
      match allocList pick n s' with
      | none => none
      | some (vs, t) => some (v :: vs, t)

/-- A valid picker yields nothing on the empty set. -/
theorem validPick_empty {pick : Finset Nat → Option Nat} (hp : ValidPick pick) :
    pick ∅ = none := by
  cases h : pick ∅ with
  | none => rfl
  | some x => exact absurd (hp.1 ∅ x h) (by simp)

/-- `minPick` is a valid picker. -/
theorem minPick_valid : ValidPick minPick := by
  constructor
  · intro s x h
    unfold minPick at h
    split at h
    · exact (Option.some_inj.mp h) ▸ Finset.min'_mem s _
    · exact Option.noConfusion h
  · intro s h
    unfold minPick at h
    split at h
    · exact Option.noConfusion h
    · exact Finset.not_nonempty_iff_eq_empty.mp (by assumption)

/-- The first allocation of a fresh allocator under the concrete picker:
it returns 0 and bumps the counter to 1. -/
theorem get_next_new_eq :
    Unique64.get_next minPick Unique64.new = some (0, ⟨∅, 1⟩) := by
  have hp : minPick (∅ : Finset Nat) = none := by simp [minPick]
  have hc : 0 + 1 < U64CARD := by norm_num [U64CARD]
  simp only [Unique64.get_next, Unique64.new, hp, if_pos hc]

/-- C1: `remove value` fails with `invalidRelease` iff `value` is already
released or `value ≥ next_id`; when neither holds it succeeds and inserts
`value`; `remove 0` on a fresh allocator fails; and after a successful
`remove value`, a second `remove value` fails. -/
theorem remove_invalidRelease_iff (s : Unique64) (v : Nat) :
    (Unique64.remove s v = .error (.invalidRelease, s) ↔
      (v ∈ s.available_ids ∨ s.next_id ≤ v))
    ∧ (v ∉ s.available_ids → v < s.next_id →
        Unique64.remove s v = .ok ⟨insert v s.available_ids, s.next_id⟩)
    ∧ Unique64.remove Unique64.new 0 = .error (.invalidRelease, Unique64.new)
    ∧ (∀ t, Unique64.remove s v = .ok t →
        Unique64.remove t v = .error (.invalidRelease, t)) := by
  refine ⟨?_, ?_, ?_, ?_⟩
  · unfold Unique64.remove
    split
    · rename_i hc
      simp [hc]
    · rename_i hc
      simp [hc]
  · intro h1 h2
    unfold Unique64.remove
    split
    · exact absurd (by assumption) (by push_neg; exact ⟨h1, h2⟩)
    · rfl
  · rfl
  · intro t ht
    unfold Unique64.remove at ht
    split at ht
    · exact Except.noConfusion ht
    · have h : t = ⟨insert v s.available_ids, s.next_id⟩ := (Except.ok.inj ht).symm
      unfold Unique64.remove
      rw [h]
      simp

/-- Witness for C1 at a concrete state: removing 3 from a released-empty
allocator with `next_id = 5` succeeds. -/
theorem remove_invalidRelease_iff_witness :
    Unique64.remove ⟨∅, 5⟩ 3 = .ok ⟨insert 3 ∅, 5⟩ :=
  (remove_invalidRelease_iff ⟨∅, 5⟩ 3).2.1 (by decide) (by decide)

/-- Counterexample for C2 as stated: at the (overflow) state with empty
released set and `next_id = 2 ^ 64 - 1`, `get_next` does not succeed — the
checked `u64` increment fails — so "allocate never returns an error" is
false over the full state space. -/
theorem get_next_overflow_counterexample :
    Unique64.get_next minPick ⟨∅, U64CARD - 1⟩ = none := by
  have hp : minPick (∅ : Finset Nat) = none := by simp [minPick]
  have hlt : ¬ (U64CARD - 1 + 1 < U64CARD) := by norm_num [U64CARD]
  simp only [Unique64.get_next, hp, hlt, if_false]

/-- C2 (amended): for every state, if the released set is non-empty
`get_next` removes and returns one of its elements leaving `next_id`
unchanged; if it is empty and the increment does not overflow, `get_next`
returns `next_id` and increments it; the only failure is the overflow
case. -/
theorem get_next_spec (pick : Finset Nat → Option Nat) (hp : ValidPick pick)
    (s : Unique64) :
    (s.available_ids.Nonempty → ∃ v, v ∈ s.available_ids ∧
      Unique64.get_next pick s = some (v, ⟨s.available_ids.erase v, s.next_id⟩))
    ∧ (s.available_ids = ∅ → s.next_id + 1 < U64CARD →
        Unique64.get_next pick s = some (s.next_id, ⟨s.available_ids, s.next_id + 1⟩))
    ∧ (s.available_ids = ∅ → U64CARD ≤ s.next_id + 1 →
        Unique64.get_next pick s = none) := by
  refine ⟨?_, ?_, ?_⟩
  · intro hne
    cases hpk : pick s.available_ids with
    | none => exact absurd (Finset.nonempty_iff_ne_empty.mp hne) (by simp [hp.2 _ hpk])
    | some x =>
        exact ⟨x, hp.1 _ x hpk, by simp only [Unique64.get_next, hpk]⟩
  · intro _ hlt
    cases hpk : pick s.available_ids with
    | none => simp only [Unique64.get_next, hpk, if_pos hlt]
    | some x => exact absurd (hp.1 _ x hpk) (by simp [*])
  · intro _ hge
    cases hpk : pick s.available_ids with
    | none => simp only [Unique64.get_next, hpk, if_neg (Nat.not_lt.mpr hge)]
    | some x => exact absurd (hp.1 _ x hpk) (by simp [*])

/-- Witness for C2 (amended) on a fresh allocator: the first allocation
returns 0 and bumps the counter to 1. -/
theorem get_next_spec_witness :
    Unique64.get_next minPick Unique64.new = some (0, ⟨(∅ : Finset Nat), 1⟩) :=
  (get_next_spec minPick minPick_valid Unique64.new).2.1 rfl
    (by norm_num [Unique64.new, U64CARD])

/-- C5: the overflow is never a silent wrap: with the released set empty and
`next_id = 2 ^ 64 - 1`, `get_next` fails (panics) rather than continuing,
and whenever `get_next` does succeed the new `next_id` is the old one
(recycle branch) or the old one plus 1 (fresh branch) — never a wrapped
value. -/
theorem no_silent_wrap (pick : Finset Nat → Option Nat) (hp : ValidPick pick) :
    (∀ s : Unique64, s.available_ids = ∅ → s.next_id = U64CARD - 1 →
      Unique64.get_next pick s = none)
    ∧ (∀ (s : Unique64) (v : Nat) (s' : Unique64),
        Unique64.get_next pick s = some (v, s') →
        s'.next_id = s.next_id ∨ s'.next_id = s.next_id + 1) := by
  constructor
  · intro s hav hnext
    have hpk : pick s.available_ids = none := by
      rw [hav]; exact validPick_empty hp
    have hlt : ¬ (s.next_id + 1 < U64CARD) := by
      rw [hnext]; norm_num [U64CARD]
    simp only [Unique64.get_next, hpk, if_neg hlt]
  · intro s v s' h
    cases hpk : pick s.available_ids with
    | some x =>
        simp only [Unique64.get_next, hpk] at h
        injection h with hpair
        injection hpair with h1 h2
        subst h2
        exact Or.inl rfl
    | none =>
        simp only [Unique64.get_next, hpk] at h
        split at h
        · injection h with hpair
          injection hpair with h1 h2
          subst h2
          exact Or.inr rfl
        · exact Option.noConfusion h

/-- Witness for C5: applying the no-wrap disjunction to the first
allocation of a fresh allocator. -/
theorem no_silent_wrap_witness :
    (⟨∅, 1⟩ : Unique64).next_id = Unique64.new.next_id ∨
      (⟨∅, 1⟩ : Unique64).next_id = Unique64.new.next_id + 1 :=
  (no_silent_wrap minPick minPick_valid).2 Unique64.new 0 ⟨∅, 1⟩ get_next_new_eq

/-- Case analysis for a successful `get_next`: either the picker found a
released id (recycle branch) or the released set yielded nothing and the
fresh counter value was issued. -/
theorem get_next_cases (pick : Finset Nat → Option Nat) (s : Unique64)
    (v : Nat) (s' : Unique64) (h : Unique64.get_next pick s = some (v, s')) :
    (pick s.available_ids = some v ∧ s' = ⟨s.available_ids.erase v, s.next_id⟩)
    ∨ (pick s.available_ids = none ∧ v = s.next_id ∧
        s' = ⟨s.available_ids, s.next_id + 1⟩ ∧ s.next_id + 1 < U64CARD) := by
  cases hpk : pick s.available_ids with
  | some x =>
      simp only [Unique64.get_next, hpk] at h
      injection h with hpair
      injection hpair with h1 h2
      subst h1
      exact Or.inl ⟨rfl, h2.symm⟩
  | none =>
      simp only [Unique64.get_next, hpk] at h
      split at h
      · injection h with hpair
        injection hpair with h1 h2
        exact Or.inr ⟨rfl, h1.symm, h2.symm, by assumption⟩
      · exact Option.noConfusion h

/-- Case analysis for a successful `remove`: the guard was passed and the
value was inserted. -/
theorem remove_ok_cases (s : Unique64) (v : Nat) (s' : Unique64)
    (h : Unique64.remove s v = .ok s') :
    v ∉ s.available_ids ∧ v < s.next_id ∧
      s' = ⟨insert v s.available_ids, s.next_id⟩ := by
  unfold Unique64.remove at h
  split at h
  · exact Except.noConfusion h
  · rename_i hc
    push_neg at hc
    exact ⟨hc.1, hc.2, (Except.ok.inj h).symm⟩

/-- C3: along any run from a fresh allocator, every identifier returned by
`get_next` was not active immediately before the call (so it never collides
with a currently-active identifier). -/
theorem get_next_not_active (pick : Finset Nat → Option Nat)
    (hp : ValidPick pick) (s : Unique64) (v : Nat) (s' : Unique64)
    (_hr : Reachable pick s) (h : Unique64.get_next pick s = some (v, s')) :
    ¬ s.Active v := by
  rcases get_next_cases pick s v s' h with ⟨hpk, _⟩ | ⟨_, hv, _⟩
  · exact fun ha => ha.2 (hp.1 _ v hpk)
  · exact fun ha => absurd (hv ▸ ha.1) (lt_irrefl s.next_id)

/-- Witness for C3: the first allocation of a fresh allocator returns 0,
which was not active before the call. -/
theorem get_next_not_active_witness : ¬ Unique64.new.Active 0 :=
  get_next_not_active minPick minPick_valid Unique64.new 0 ⟨∅, 1⟩
    (Reachable.new) get_next_new_eq

/-- A successful `get_next` preserves invariant I1. -/
theorem I1_preserved_alloc (pick : Finset Nat → Option Nat) (s : Unique64)
    (v : Nat) (s' : Unique64) (hi : I1 s)
    (h : Unique64.get_next pick s = some (v, s')) : I1 s' := by
  rcases get_next_cases pick s v s' h with ⟨_, hs'⟩ | ⟨_, _, hs', _⟩
  · subst hs'
    intro x hx
    exact hi x (Finset.mem_of_mem_erase hx)
  · subst hs'
    intro x hx
    exact Nat.lt_succ_of_lt (hi x hx)

/-- A successful `remove` preserves invariant I1. -/
theorem I1_preserved_remove (s : Unique64) (v : Nat) (s' : Unique64)
    (hi : I1 s) (h : Unique64.remove s v = .ok s') : I1 s' := by
  obtain ⟨_, hlt, hs'⟩ := remove_ok_cases s v s' h
  subst hs'
  intro x hx
  rcases Finset.mem_insert.mp hx with rfl | hx'
  · exact hlt
  · exact hi x hx'

/-- Invariant I1 holds in every reachable state. -/
theorem reachable_I1 (pick : Finset Nat → Option Nat) (s : Unique64)
    (hr : Reachable pick s) : I1 s := by
  induction hr with
  | new => intro x hx; simp [Unique64.new] at hx
  | alloc _ h ih => exact I1_preserved_alloc _ _ _ _ ih h
  | release _ h ih => exact I1_preserved_remove _ _ _ ih h

/-- C6: invariant I1 — every released identifier is strictly below
`next_id` — holds in every reachable state, and is preserved by every
successful `get_next` and `remove` from any state satisfying it. -/
theorem released_lt_next :
    (∀ pick s, Reachable pick s → I1 s)
    ∧ (∀ pick (s : Unique64) v s', I1 s →
        Unique64.get_next pick s = some (v, s') → I1 s')
    ∧ (∀ (s : Unique64) v s', I1 s →
        Unique64.remove s v = .ok s' → I1 s') :=
  ⟨reachable_I1, I1_preserved_alloc, I1_preserved_remove⟩

/-- Witness for C6: I1 holds in the fresh state. -/
theorem released_lt_next_witness : I1 Unique64.new :=
  released_lt_next.1 minPick Unique64.new Reachable.new

/-- C8: `next_id` never decreases: across any successful `get_next` it
stays or grows by one, and across any successful `remove` it is
unchanged. -/
theorem next_id_monotone :
    (∀ pick (s : Unique64) v s', Unique64.get_next pick s = some (v, s') →
      s.next_id ≤ s'.next_id)
    ∧ (∀ (s : Unique64) v s', Unique64.remove s v = .ok s' →
      s.next_id ≤ s'.next_id) := by
  constructor
  · intro pick s v s' h
    rcases get_next_cases pick s v s' h with ⟨_, hs'⟩ | ⟨_, _, hs', _⟩
    · subst hs'; exact le_refl _
    · subst hs'; exact Nat.le_succ _
  · intro s v s' h
    obtain ⟨_, _, hs'⟩ := remove_ok_cases s v s' h
    subst hs'
    exact le_refl _

/-- Witness for C8: the first allocation takes `next_id` from 0 to 1. -/
theorem next_id_monotone_witness :
    Unique64.new.next_id ≤ (⟨∅, 1⟩ : Unique64).next_id :=
  next_id_monotone.1 minPick Unique64.new 0 ⟨∅, 1⟩ get_next_new_eq

/-- C9: frame conditions.  A successful `get_next` either removes exactly
the returned (previously released) id from the released set leaving
`next_id` unchanged, or leaves the released set unchanged and increments
`next_id` — never both.  A successful `remove v` only inserts the
previously absent `v` into the released set and leaves `next_id`
unchanged. -/
theorem frame_conditions (pick : Finset Nat → Option Nat)
    (hp : ValidPick pick) :
    (∀ (s : Unique64) v s', Unique64.get_next pick s = some (v, s') →
      (v ∈ s.available_ids ∧ s'.available_ids = s.available_ids.erase v ∧
        s'.next_id = s.next_id)
      ∨ (s'.available_ids = s.available_ids ∧ s'.next_id = s.next_id + 1))
    ∧ (∀ (s : Unique64) v s', Unique64.remove s v = .ok s' →
      v ∉ s.available_ids ∧ s'.available_ids = insert v s.available_ids ∧
        s'.next_id = s.next_id) := by
  constructor
  · intro s v s' h
    rcases get_next_cases pick s v s' h with ⟨hpk, hs'⟩ | ⟨_, _, hs', _⟩
    · subst hs'
      exact Or.inl ⟨hp.1 _ v hpk, rfl, rfl⟩
    · subst hs'
      exact Or.inr ⟨rfl, rfl⟩
  · intro s v s' h
    obtain ⟨hnm, _, hs'⟩ := remove_ok_cases s v s' h
    subst hs'
    exact ⟨hnm, rfl, rfl⟩

/-- Witness for C9: a concrete successful `remove` inserts exactly the
released id and keeps `next_id`. -/
theorem frame_conditions_witness :
    3 ∉ (⟨∅, 5⟩ : Unique64).available_ids ∧
      (⟨insert 3 ∅, 5⟩ : Unique64).available_ids =
        insert 3 (⟨∅, 5⟩ : Unique64).available_ids ∧
      (⟨insert 3 ∅, 5⟩ : Unique64).next_id = (⟨∅, 5⟩ : Unique64).next_id :=
  (frame_conditions minPick minPick_valid).2 ⟨∅, 5⟩ 3 ⟨insert 3 ∅, 5⟩ rfl

/-- C10: a failed `remove` is atomic — the error carries the state at the
panic point, which is exactly the unchanged pre-state, and the failure is
precisely the invalid-release condition. -/
theorem failed_remove_unchanged (s : Unique64) (v : Nat)
    (e : AllocError × Unique64) (h : Unique64.remove s v = .error e) :
    e.2 = s ∧ e.1 = AllocError.invalidRelease ∧
      (v ∈ s.available_ids ∨ s.next_id ≤ v) := by
  unfold Unique64.remove at h
  split at h
  · rename_i hc
    have he : e = (AllocError.invalidRelease, s) := (Except.error.inj h).symm
    subst he
    exact ⟨rfl, rfl, hc⟩
  · exact Except.noConfusion h

/-- Witness for C10: releasing 0 from a fresh allocator fails and leaves
the fresh state untouched. -/
theorem failed_remove_unchanged_witness :
    (AllocError.invalidRelease, Unique64.new).2 = Unique64.new ∧
      (AllocError.invalidRelease, Unique64.new).1 = AllocError.invalidRelease ∧
      (0 ∈ Unique64.new.available_ids ∨ Unique64.new.next_id ≤ 0) :=
  failed_remove_unchanged Unique64.new 0 (AllocError.invalidRelease, Unique64.new) rfl

/-- Running `get_next` `n` times on an allocator with an empty released set
and counter `start` issues `start, start + 1, …, start + n - 1` in order,
provided the counter never overflows. -/
theorem allocList_fresh_run (pick : Finset Nat → Option Nat)
    (hp : ValidPick pick) :
    ∀ (n start : Nat), start + n < U64CARD →
      allocList pick n ⟨∅, start⟩ = some (List.range' start n, ⟨∅, start + n⟩) := by
  intro n
  induction n with
  | zero => intro start _; simp [allocList, List.range']
  | succ n ih =>
      intro start hlt
      have hc : start + 1 < U64CARD := by omega
      have hg : Unique64.get_next pick ⟨∅, start⟩ = some (start, ⟨∅, start + 1⟩) := by
        simp only [Unique64.get_next, validPick_empty hp, if_pos hc]
      have hrest := ih (start + 1) (by omega)
      have hn : start + 1 + n = start + (n + 1) := by omega
      simp only [allocList, hg, hrest]
      rw [List.range'_succ, hn]

/-- Running `get_next` on an empty released set long enough to push the
counter past `2 ^ 64 - 1` fails: the run panics at the overflow. -/
theorem allocList_fresh_overflow_run (pick : Finset Nat → Option Nat)
    (hp : ValidPick pick) :
    ∀ (n start : Nat), start < U64CARD → U64CARD ≤ start + n →
      allocList pick n ⟨∅, start⟩ = none := by
  intro n
  induction n with
  | zero => intro start h1 h2; omega
  | succ n ih =>
      intro start h1 h2
      by_cases hc : start + 1 < U64CARD
      · have hg : Unique64.get_next pick ⟨∅, start⟩ = some (start, ⟨∅, start + 1⟩) := by
          simp only [Unique64.get_next, validPick_empty hp, if_pos hc]
        simp only [allocList, hg, ih (start + 1) hc (by omega)]
      · have hg : Unique64.get_next pick ⟨∅, start⟩ = none := by
          simp only [Unique64.get_next, validPick_empty hp, if_neg hc]
        simp only [allocList, hg]

/-- Counterexample for C7 as stated: "for every N" fails at N = 2 ^ 64 —
the 2 ^ 64-th consecutive fresh allocation overflows the checked `u64`
counter, so the run does not yield `0, …, 2 ^ 64 - 1`. -/
theorem allocList_overflow_counterexample :
    allocList minPick U64CARD Unique64.new = none :=
  allocList_fresh_overflow_run minPick minPick_valid U64CARD 0
    (by norm_num [U64CARD]) (by omega)

/-- C7 (amended): for every `N < 2 ^ 64`, `N` calls of `get_next` on a
fresh allocator with no releases yield exactly `0, 1, …, N - 1` in that
order and leave `next_id = N` with the released set still empty. -/
theorem allocList_fresh_spec (pick : Finset Nat → Option Nat)
    (hp : ValidPick pick) (n : Nat) (hn : n < U64CARD) :
    allocList pick n Unique64.new = some (List.range n, ⟨∅, n⟩) := by
  have h := allocList_fresh_run pick hp n 0 (by omega)
  rw [List.range_eq_range']
  simpa using h

/-- Witness for C7 (amended) at N = 1000: scenario A of the spec. -/
theorem allocList_fresh_spec_witness :
    allocList minPick 1000 Unique64.new = some (List.range 1000, ⟨∅, 1000⟩) :=
  allocList_fresh_spec minPick minPick_valid 1000 (by norm_num [U64CARD])

/-- C4: while the released set is non-empty, `get_next` returns a
previously released (hence previously issued, not fresh) identifier and
does not advance `next_id`; and the spec's concrete scenario C: allocate
twice (0 then 1), release 0, allocate again returns 0. -/
theorem recycle_before_fresh :
    (∀ pick, ValidPick pick → ∀ s : Unique64, Reachable pick s →
      s.available_ids.Nonempty →
      ∃ v, v ∈ s.available_ids ∧ v < s.next_id ∧
        Unique64.get_next pick s = some (v, ⟨s.available_ids.erase v, s.next_id⟩))
    ∧ (∀ pick, ValidPick pick →
        allocList pick 2 Unique64.new = some ([0, 1], ⟨∅, 2⟩)
        ∧ Unique64.remove ⟨∅, 2⟩ 0 = .ok ⟨insert 0 ∅, 2⟩
        ∧ Unique64.get_next pick ⟨insert 0 ∅, 2⟩ = some (0, ⟨∅, 2⟩)) := by
  constructor
  · intro pick hp s hr hne
    cases hpk : pick s.available_ids with
    | none =>
        exact absurd (Finset.nonempty_iff_ne_empty.mp hne) (by simp [hp.2 _ hpk])
    | some x =>
        refine ⟨x, hp.1 _ x hpk, reachable_I1 pick s hr x (hp.1 _ x hpk), ?_⟩
        simp only [Unique64.get_next, hpk]
  · intro pick hp
    refine ⟨?_, ?_, ?_⟩
    · have h := allocList_fresh_run pick hp 2 0 (by norm_num [U64CARD])
      simpa [List.range'] using h
    · rfl
    · cases hpk : pick (insert 0 (∅ : Finset Nat)) with
      | none =>
          exact absurd (hp.2 _ hpk) (by simp)
      | some x =>
          have hx : x = 0 := by simpa using hp.1 _ x hpk
          subst hx
          simp only [Unique64.get_next, hpk]
          rw [Finset.erase_insert (Finset.not_mem_empty 0)]

/-- Witness for C4: scenario C evaluated with the concrete picker — after
allocating 0 and 1 and releasing 0, the next allocation returns 0. -/
theorem recycle_before_fresh_witness :
    Unique64.get_next minPick ⟨insert 0 ∅, 2⟩ = some (0, ⟨∅, 2⟩) :=
  (recycle_before_fresh.2 minPick minPick_valid).2.2
